import Mathlib

set_option maxRecDepth 40000

/- Shallow embedding of the ext4fs read-only filesystem library (a Rust
   crate reading ext4 disk images).

   Conventions of the embedding:
   - a byte is a Nat (< 256 on any real image); the random-access byte
     source (the disk image) is a total function Nat -> Nat together with
     its size, and a positioned, possibly length-limited reader over it is
     a Strm; a finite buffer of bytes read out of it is a List Nat;
   - machine-integer arithmetic is Nat arithmetic, with an explicit
     `% 2 ^ w` exactly where the source's u16/u32/u64 arithmetic can wrap
     (release semantics; debug builds of the source panic at the same
     spots);
   - fallible operations return Except ExtfsError, mirroring the source's
     Result<_, ExtfsError>;
   - the source's unbounded loops (the extent-tree walk, directory
     scanning) take a fuel argument; running out of fuel produces the
     distinguished error OutOfFuel, which no source operation ever
     returns, so an `.ok` result always corresponds to a terminating
     source run. -/

namespace Extfs

/-- Little-endian value of a byte list (first byte is least significant),
    as produced by bincode's with_little_endian / with_fixint_encoding
    decoding used throughout codec.rs. -/
def leVal (bs : List Nat) : Nat := bs.foldr (fun b acc => b + 256 * acc) 0

/-- Kinds of std::io errors the source distinguishes: ErrorKind
    UnexpectedEof against every other kind. -/
inductive IOErr where
  | eof
  | other
deriving DecidableEq

/-- errors.rs ExtfsError. Payloads are kept where a claim inspects them;
    path payloads are omitted (they are never inspected by the library
    itself). OutOfFuel is not a source error: it marks exhaustion of the
    fuel bounding the source's unbounded loops. -/
inductive ExtfsError where
  | Bincode
  | Io (k : IOErr)
  | InvalidSuperBlockMagic (m : Nat)
  | BlockGroupCountMismatch (blocks inodes : Nat)
  | BlockGroupDescriptorNotFound (g : Nat)
  | InvalidExtentHeaderMagic (m : Nat)
  | RequireAbsolutePath
  | UnexpectedParentDir
  | InvalidPath
  | NoSuchFileOrDirectory
  | IsNotDirecotry
  | IsNotSymlink
  | IsNotRegular
  | UnexpectedDirEntry
  | OtherErr
  | OutOfFuel
deriving DecidableEq

/-- utils.rs compute_u64: ((high as u64) << 32) | (lower as u64). -/
def compute_u64 (lower high : Nat) : Nat := (high <<< 32) ||| lower

/-- A random-access byte source: the byte at each position and the total
    size. Reads past `size` fail (read_exact semantics); seeks to any
    position are allowed, as with std::io cursors and files. -/
structure Image where
  data : Nat → Nat
  size : Nat

/-- The n bytes of the image starting at pos, as a list. -/
def Image.readAt (img : Image) (pos n : Nat) : List Nat :=
  (List.range n).map (fun j => img.data (pos + j))

/-- An image backed by a byte list (the source's Cursor over the inode's
    60-byte block array). -/
def Image.ofList (l : List Nat) : Image := ⟨fun i => l.getD i 0, l.length⟩

/-- A positioned reader over an image, optionally length-limited (the
    source's `reader.take(k)`): `lim` is the remaining budget. An
    unlimited reader carries `lim = img.size`, which is never the binding
    constraint. -/
structure Strm where
  img : Image
  pos : Nat
  lim : Nat

/-- Exact read of n bytes from a reader; models Read::read_exact (and
    bincode's reads): it fails exactly when the budget or the image is
    exhausted before n bytes. -/
def Strm.readExact (s : Strm) (n : Nat) : Option (List Nat × Strm) :=
  if n ≤ s.lim ∧ s.pos + n ≤ s.img.size then
    some (s.img.readAt s.pos n, ⟨s.img, s.pos + n, s.lim - n⟩)
  else none

/-- superblock.rs SuperBlock. Only the fields the library consults at
    runtime are modelled; the many remaining on-disk fields are decoded
    and never read by the source (serde derives the full record), so they
    do not influence any modelled operation. -/
structure SuperBlock where
  inodes_count : Nat      -- u32
  blocks_count_lo : Nat   -- u32
  log_block_size : Nat    -- u32
  blocks_per_group : Nat  -- u32
  inodes_per_group : Nat  -- u32
  magic : Nat             -- u16
  inode_size : Nat        -- u16
  feature_incompat : Nat  -- u32
  blocks_count_hi : Nat   -- u32
deriving DecidableEq

/-- superblock.rs SuperBlock::feature_incompat_filetype
    (FEATURE_INCOMPAT_FILETYPE = 0x2). -/
def SuperBlock.feature_incompat_filetype (sb : SuperBlock) : Bool :=
  sb.feature_incompat &&& 0x2 ≠ 0

/-- superblock.rs SuperBlock::feature_incompat_extents
    (FEATURE_INCOMPAT_EXTENTS = 0x40). -/
def SuperBlock.feature_incompat_extents (sb : SuperBlock) : Bool :=
  sb.feature_incompat &&& 0x40 ≠ 0

/-- superblock.rs SuperBlock::feature_incompat_64bit
    (FEATURE_INCOMPAT_64BIT = 0x80). -/
def SuperBlock.feature_incompat_64bit (sb : SuperBlock) : Bool :=
  sb.feature_incompat &&& 0x80 ≠ 0

/-- superblock.rs SuperBlock::get_block_count:
    compute_u64(blocks_count_lo, blocks_count_hi). -/
def SuperBlock.get_block_count (sb : SuperBlock) : Nat :=
  compute_u64 sb.blocks_count_lo sb.blocks_count_hi

/-- superblock.rs SuperBlock::get_block_size: 1024 << log_block_size
    (u64 shift; the result is reduced modulo 2^64 like every u64). -/
def SuperBlock.get_block_size (sb : SuperBlock) : Nat :=
  (1024 <<< sb.log_block_size) % 2 ^ 64

/-- superblock.rs SuperBlock::get_block_group_count:
    `self.get_block_count() as u32 / self.blocks_per_group + 1`.
    The `as u32` cast truncates the 64-bit block count to its low 32 bits
    before the division, and the result lives in u32, so the + 1 wraps. -/
def SuperBlock.get_block_group_count (sb : SuperBlock) : Nat :=
  (sb.get_block_count % 2 ^ 32 / sb.blocks_per_group + 1) % 2 ^ 32

/-- superblock.rs SuperBlock::from_reader, validation phase: the checks
    the source performs on the freshly decoded record (the bincode decode
    itself can only fail on a short read, and a successfully decoded
    record is passed through unchanged). The block-side numerator
    `get_block_count() + blocks_per_group as u64 - 1` is u64 arithmetic
    and the inode-side numerator `inodes_count + inodes_per_group - 1` is
    u32 arithmetic; both can wrap (release semantics). -/
def SuperBlock.from_record (sb : SuperBlock) : Except ExtfsError SuperBlock :=
  if sb.magic ≠ 0xEF53 then .error (.InvalidSuperBlockMagic sb.magic)
  else
    let bg_count_from_block :=
      (sb.get_block_count + sb.blocks_per_group + (2 ^ 64 - 1)) % 2 ^ 64 / sb.blocks_per_group
    let bg_count_from_inode :=
      (sb.inodes_count + sb.inodes_per_group + (2 ^ 32 - 1)) % 2 ^ 32 / sb.inodes_per_group
    if bg_count_from_block ≠ bg_count_from_inode then
      .error (.BlockGroupCountMismatch bg_count_from_block bg_count_from_inode)
    else .ok sb

/-- descriptor.rs BlockGroupDescriptor. Only inode_table_lo/hi are
    consulted at runtime (get_inode_table_loc); the other fields are
    decoded and never read. -/
structure BlockGroupDescriptor where
  inode_table_lo : Nat  -- u32
  inode_table_hi : Nat  -- u32
deriving DecidableEq

/-- descriptor.rs BlockGroupDescriptor::get_inode_table_loc. -/
def BlockGroupDescriptor.get_inode_table_loc (bgd : BlockGroupDescriptor) : Nat :=
  compute_u64 bgd.inode_table_lo bgd.inode_table_hi

/-- extent.rs ExtentHeader (12 bytes on disk). -/
structure ExtentHeader where
  magic : Nat       -- u16
  entries : Nat     -- u16
  max : Nat         -- u16
  depth : Nat       -- u16
  generation : Nat  -- u32
deriving DecidableEq

/-- bincode decode of an ExtentHeader from a reader. -/
def decodeExtentHeader (s : Strm) : Option (ExtentHeader × Strm) :=
  match s.readExact 12 with
  | none => none
  | some (b, r) =>
    some ({ magic := leVal (b.take 2), entries := leVal ((b.drop 2).take 2),
            max := leVal ((b.drop 4).take 2), depth := leVal ((b.drop 6).take 2),
            generation := leVal (b.drop 8) }, r)

/-- extent.rs ExtentHeader::from_reader: decode, then validate
    magic == EXTENT_HEADER_MAGIC (0xF30A). -/
def ExtentHeader.from_reader (s : Strm) : Except ExtfsError (ExtentHeader × Strm) :=
  match decodeExtentHeader s with
  | none => .error .Bincode
  | some (eh, r) =>
    if eh.magic ≠ 0xF30A then .error (.InvalidExtentHeaderMagic eh.magic)
    else .ok (eh, r)

/-- extent.rs Extent (leaf node of the extent tree, 12 bytes on disk). -/
structure Extent where
  block : Nat     -- u32, first logical file block covered
  len : Nat       -- u16, number of blocks covered
  start_hi : Nat  -- u16
  start_lo : Nat  -- u32
deriving DecidableEq

/-- extent.rs Extent::get_block_loc: compute_u64(start_lo, start_hi). -/
def Extent.get_block_loc (e : Extent) : Nat := compute_u64 e.start_lo e.start_hi

/-- bincode decode of an Extent from a reader. -/
def decodeExtent (s : Strm) : Option (Extent × Strm) :=
  match s.readExact 12 with
  | none => none
  | some (b, r) =>
    some ({ block := leVal (b.take 4), len := leVal ((b.drop 4).take 2),
            start_hi := leVal ((b.drop 6).take 2), start_lo := leVal (b.drop 8) }, r)

/-- extent.rs ExtentIdx (internal node of the extent tree, 12 bytes). -/
structure ExtentIdx where
  block : Nat    -- u32
  leaf_lo : Nat  -- u32
  leaf_hi : Nat  -- u16
  unused : Nat   -- u16
deriving DecidableEq

/-- extent.rs ExtentIdx::get_extent_loc: compute_u64(leaf_lo, leaf_hi). -/
def ExtentIdx.get_extent_loc (i : ExtentIdx) : Nat := compute_u64 i.leaf_lo i.leaf_hi

/-- bincode decode of an ExtentIdx from a reader. -/
def decodeExtentIdx (s : Strm) : Option (ExtentIdx × Strm) :=
  match s.readExact 12 with
  | none => none
  | some (b, r) =>
    some ({ block := leVal (b.take 4), leaf_lo := leVal ((b.drop 4).take 4),
            leaf_hi := leVal ((b.drop 8).take 2), unused := leVal (b.drop 10) }, r)

/-- extent.rs ExtentOrIdx. -/
inductive ExtentOrIdx where
  | Extent (e : Extent)
  | Idx (i : ExtentIdx)
deriving DecidableEq

/-- Decode of `n` consecutive Extent records (the source's
    `for _ in 0..eh.entries` loop over Extent::decode_from). -/
def decodeExtents : Nat → Strm → Option (List Extent × Strm)
  | 0, s => some ([], s)
  | n + 1, s =>
    match decodeExtent s with
    | none => none
    | some (e, r) =>
      match decodeExtents n r with
      | none => none
      | some (es, r') => some (e :: es, r')

/-- Decode of `n` consecutive ExtentIdx records (the source's
    `for _ in 0..eh.entries` loop over ExtentIdx::decode_from). -/
def decodeIdxs : Nat → Strm → Option (List ExtentIdx × Strm)
  | 0, s => some ([], s)
  | n + 1, s =>
    match decodeExtentIdx s with
    | none => none
    | some (i, r) =>
      match decodeIdxs n r with
      | none => none
      | some (is, r') => some (i :: is, r')

/-- inode.rs Inode::parse_extents: decode the header (validating its
    magic), then `entries` leaf records when depth == 0, else `entries`
    index records. The source pushes each record into one
    Vec<ExtentOrIdx>; decoding the homogeneous list and tagging it
    afterwards yields the same list. -/
def parse_extents (s : Strm) : Except ExtfsError (List ExtentOrIdx) :=
  match ExtentHeader.from_reader s with
  | .error e => .error e
  | .ok (eh, r) =>
    if eh.depth = 0 then
      match decodeExtents eh.entries r with
      | none => .error .Bincode
      | some (es, _) => .ok (es.map ExtentOrIdx.Extent)
    else
      match decodeIdxs eh.entries r with
      | none => .error .Bincode
      | some (is, _) => .ok (is.map ExtentOrIdx.Idx)

/-- Modelled from the spec (§4.5): parse a header at a node of the extent
    tree (validating magic == 0xF30A), then read the node's payload: its
    `entries` leaves when depth == 0, else its `entries` index records. -/
def specParseNode (s : Strm) : Except ExtfsError (List Extent ⊕ List ExtentIdx) :=
  match ExtentHeader.from_reader s with
  | .error e => .error e
  | .ok (eh, r) =>
    if eh.depth = 0 then
      match decodeExtents eh.entries r with
      | none => .error .Bincode
      | some (es, _) => .ok (.inl es)
    else
      match decodeIdxs eh.entries r with
      | none => .error .Bincode
      | some (is, _) => .ok (.inr is)

/-- The unlimited reader over the image positioned at pos (the source
    seeks its single reader there). -/
def Strm.at (img : Image) (pos : Nat) : Strm := ⟨img, pos, img.size⟩

/-- The leaf extents of a mixed queue, in order. -/
def extentsOf : List ExtentOrIdx → List Extent
  | [] => []
  | .Extent e :: q => e :: extentsOf q
  | .Idx _ :: q => extentsOf q

/-- The index records of a mixed queue, in order. -/
def idxsOf : List ExtentOrIdx → List ExtentIdx
  | [] => []
  | .Extent _ :: q => idxsOf q
  | .Idx i :: q => i :: idxsOf q

/-- Popping a queue down to its first index record: the leaf extents
    popped (and emitted) on the way, then the first index and the queue
    behind it (none when the queue holds leaves only). -/
def popRun : List ExtentOrIdx → List Extent × Option (ExtentIdx × List ExtentOrIdx)
  | [] => ([], none)
  | .Extent e :: q => ((popRun q).1.cons e, (popRun q).2)
  | .Idx i :: q => ([], some (i, q))

/-- inode.rs Inode::extents main loop: a single FIFO (VecDeque) of
    ExtentOrIdx items; a popped leaf is appended to the result, a popped
    index has its child node parsed at get_extent_loc() * block_size and
    the child's records pushed at the back of the queue. The leaf pops in
    front of the next index pop are grouped through popRun so that the
    recursion is structural on fuel, which counts index pops; the source
    loop pops one item at a time and has no bound (it diverges on a
    cyclic image). -/
def walk (img : Image) (bs : Nat) : Nat → List ExtentOrIdx → Except ExtfsError (List Extent)
  | fuel, q =>
    match popRun q with
    | (es, none) => .ok es
    | (es, some (i, q')) =>
      match fuel with
      | 0 => .error .OutOfFuel
      | fuel + 1 =>
        match parse_extents (Strm.at img (i.get_extent_loc * bs)) with
        | .error er => .error er
        | .ok ch => (walk img bs fuel (q' ++ ch)).map (fun l => es ++ l)

/-- Modelled from the spec (§4.5): the walk over a FIFO queue holding
    index records only. Dequeue an index; seek to
    get_extent_loc() * block_size; parse the node there; collect its
    leaves, or enqueue its further indices; continue until the queue
    drains. fuel bounds the number of dequeues. -/
def specW (img : Image) (bs : Nat) : Nat → List ExtentIdx → Except ExtfsError (List Extent)
  | _, [] => .ok []
  | 0, _ :: _ => .error .OutOfFuel
  | fuel + 1, i :: q =>
    match specParseNode (Strm.at img (i.get_extent_loc * bs)) with
    | .error er => .error er
    | .ok (.inl ls) => (specW img bs fuel q).map (fun l => ls ++ l)
    | .ok (.inr js) => specW img bs fuel (q ++ js)

/-- inode.rs Inode. Only the fields consulted by the modelled operations
    are kept (mode, size_lo, flags, block, size_high); uid, gid, the
    timestamps, osd areas, generation, checksums and the extra fields are
    decoded by serde and never read by those operations. -/
structure Inode where
  mode : Nat        -- u16
  size_lo : Nat     -- u32
  flags : Nat       -- u32
  block : List Nat  -- [u8; 60], extent tree root (or inline symlink target)
  size_high : Nat   -- u32
deriving DecidableEq

/-- bincode decode of an Inode record at byte position pos of the image.
    The derived record's bincode footprint is 160 bytes (mode at offset 0,
    size_lo at 4, flags at 32, block at 40..100, size_high at 108, last
    field projid ending at 160), so the decode fails exactly when fewer
    than 160 bytes remain. -/
def Inode.decode_from (img : Image) (pos : Nat) : Except ExtfsError Inode :=
  if pos + 160 ≤ img.size then
    .ok { mode := leVal (img.readAt pos 2),
          size_lo := leVal (img.readAt (pos + 4) 4),
          flags := leVal (img.readAt (pos + 32) 4),
          block := img.readAt (pos + 40) 60,
          size_high := leVal (img.readAt (pos + 108) 4) }
  else .error .Bincode

/-- inode.rs Inode::get_size: compute_u64(size_lo, size_high). -/
def Inode.get_size (ino : Inode) : Nat := compute_u64 ino.size_lo ino.size_high

/-- inode.rs Inode::is_dir: mode & 0xF000 == INODE_MODE_DIR (0x4000). -/
def Inode.is_dir (ino : Inode) : Bool := ino.mode &&& 0xF000 = 0x4000

/-- inode.rs Inode::is_regular: mode & 0xF000 == INODE_MODE_REG (0x8000). -/
def Inode.is_regular (ino : Inode) : Bool := ino.mode &&& 0xF000 = 0x8000

/-- inode.rs Inode::is_symlink: mode & 0xF000 == INODE_MODE_LNK (0xA000). -/
def Inode.is_symlink (ino : Inode) : Bool := ino.mode &&& 0xF000 = 0xA000

/-- inode.rs Inode::uses_extents: flags & INODE_FLAG_EXTENTS != 0. -/
def Inode.uses_extents (ino : Inode) : Bool := ino.flags &&& 0x80000 ≠ 0

/-- inode.rs Inode::extents: seed the FIFO with the records parsed from a
    cursor over the inode's 60-byte block buffer, then run the
    queue-driven walk against the image. -/
def Inode.extents (ino : Inode) (fuel bs : Nat) (img : Image) :
    Except ExtfsError (List Extent) :=
  match parse_extents (Strm.at (Image.ofList ino.block) 0) with
  | .error e => .error e
  | .ok q => walk img bs fuel q

/-- Modelled from the spec (§4.5): parse the root header from the inode's
    60-byte block buffer; when depth == 0, yield the root's `entries`
    leaves; otherwise push each root index onto a FIFO, then repeatedly
    dequeue an index, read its child node at physical byte position
    (leaf_hi << 32 | leaf_lo) * block_size, and collect the child's leaves
    or enqueue its indices, until the queue drains. All visited headers
    validate magic == 0xF30A, else the walk fails with
    InvalidExtentHeaderMagic carrying that magic. -/
def specExtents (ino : Inode) (fuel bs : Nat) (img : Image) :
    Except ExtfsError (List Extent) :=
  match specParseNode (Strm.at (Image.ofList ino.block) 0) with
  | .error e => .error e
  | .ok (.inl ls) => .ok ls
  | .ok (.inr js) => specW img bs fuel js

/-- extent.rs Extent::read_bytes: seek to
    get_block_loc() * block_size + start and read
    min(len * block_size, max) bytes exactly. -/
def Extent.read_bytes (e : Extent) (bs : Nat) (img : Image) (start mx : Nat) :
    Except ExtfsError (List Nat) :=
  let pos := e.get_block_loc * bs
  let size := if mx < e.len * bs then mx else e.len * bs
  if pos + start + size ≤ img.size then .ok (img.readAt (pos + start) size)
  else .error (.Io .eof)

/-- inode.rs Inode::read_bytes main loop: visit extents in order, stopping
    once the remaining size hits 0; each extent is read with max set to
    the remaining size; the remaining size decreases by the bytes actually
    read (guarded by the source's `if size >= buf.len()`). -/
def readBytesLoop (img : Image) (bs : Nat) : List Extent → Nat → Except ExtfsError (List Nat)
  | [], _ => .ok []
  | e :: rest, size =>
    if size = 0 then .ok []
    else
      match e.read_bytes bs img 0 size with
      | .error er => .error er
      | .ok buf =>
        match readBytesLoop img bs rest (if buf.length ≤ size then size - buf.length else size) with
        | .error er => .error er
        | .ok tl => .ok (buf ++ tl)

/-- inode.rs Inode::read_bytes: walk the extent tree, then concatenate the
    per-extent reads truncated to the file size. -/
def Inode.read_bytes (ino : Inode) (fuel bs : Nat) (img : Image) :
    Except ExtfsError (List Nat) :=
  match ino.extents fuel bs img with
  | .error e => .error e
  | .ok exts => readBytesLoop img bs exts ino.get_size

/-- inode.rs Inode::read_link: when size <= block.len() (the 60-byte
    inline buffer) return its first `size` bytes, else fall back to the
    extent-based full-file read. -/
def Inode.read_link (ino : Inode) (fuel bs : Nat) (img : Image) :
    Except ExtfsError (List Nat) :=
  if ino.get_size ≤ ino.block.length then .ok (ino.block.take ino.get_size)
  else ino.read_bytes fuel bs img

/-- Total byte capacity of an extent list: sum of len * block_size. -/
def extentsCap (bs : Nat) : List Extent → Nat
  | [] => 0
  | e :: rest => e.len * bs + extentsCap bs rest

/-- entry.rs DirEntry (classic layout: u16 name_len, no file type). -/
structure DirEntry where
  inode : Nat     -- u32
  rec_len : Nat   -- u16
  name_len : Nat  -- u16
  name : List Nat
deriving DecidableEq

/-- entry.rs DirEntry2 (filetype layout: u8 name_len, u8 file_type). -/
structure DirEntry2 where
  inode : Nat      -- u32
  rec_len : Nat    -- u16
  name_len : Nat   -- u8
  file_type : Nat  -- u8
  name : List Nat
deriving DecidableEq

/-- entry.rs DirEntryTail (the checksum sentinel: inode == 0,
    rec_len == 12, reserved_ft == 0xDE). -/
structure DirEntryTail where
  rec_len : Nat   -- u16, always 12 here
  checksum : Nat  -- u32
deriving DecidableEq

/-- entry.rs DirEntryEnum. -/
inductive DirEntryEnum where
  | DirEntry (e : DirEntry)
  | DirEntry2 (e : DirEntry2)
  | DirEntryTail (e : DirEntryTail)
deriving DecidableEq

/-- entry.rs DirEntryEnum::get_rec_len. -/
def DirEntryEnum.get_rec_len : DirEntryEnum → Nat
  | .DirEntry e => e.rec_len
  | .DirEntry2 e => e.rec_len
  | .DirEntryTail e => e.rec_len

/-- entry.rs DirEntryEnum::get_ino (None for a tail). -/
def DirEntryEnum.get_ino : DirEntryEnum → Option Nat
  | .DirEntry e => some e.inode
  | .DirEntry2 e => some e.inode
  | .DirEntryTail _ => none

/-- entry.rs DirEntryEnum::get_name_str, kept as the raw name bytes (the
    source lossy-UTF-8-decodes them into a String; on UTF-8 names the two
    representations compare identically and path lookup compares names for
    equality only). -/
def DirEntryEnum.get_name : DirEntryEnum → List Nat
  | .DirEntry e => e.name
  | .DirEntry2 e => e.name
  | .DirEntryTail _ => []

/-- entry.rs DirEntryEnum::is_dot: the name is ".". -/
def DirEntryEnum.is_dot : DirEntryEnum → Bool
  | .DirEntry e => e.name = [46]
  | .DirEntry2 e => e.name = [46]
  | .DirEntryTail _ => false

/-- entry.rs DirEntryEnum::is_dotdot: the name is "..". -/
def DirEntryEnum.is_dotdot : DirEntryEnum → Bool
  | .DirEntry e => e.name = [46, 46]
  | .DirEntry2 e => e.name = [46, 46]
  | .DirEntryTail _ => false

/-- The name_len field of a non-tail entry (0 for a tail). -/
def DirEntryEnum.name_lenN : DirEntryEnum → Nat
  | .DirEntry e => e.name_len
  | .DirEntry2 e => e.name_len
  | .DirEntryTail _ => 0

/-- entry.rs DirEntryEnum::from_reader: read inode (u32) and rec_len
    (u16); when inode == 0 && rec_len == 12 parse a tail (validating the
    reserved byte and the 0xDE file-type sentinel); otherwise parse a
    DirEntry2 (filetype feature) or a classic DirEntry, then discard the
    alignment bytes. The skip count `rec_len - (name_len as u16 + 8)` is
    u16 arithmetic and wraps when rec_len < name_len + 8 (release
    semantics). Returns the entry and the advanced reader. -/
def DirEntryEnum.from_reader (s : Strm) (ftype : Bool) :
    Except IOErr (DirEntryEnum × Strm) :=
  match s.readExact 4 with
  | none => .error .eof
  | some (bi, s1) =>
    match s1.readExact 2 with
    | none => .error .eof
    | some (br, s2) =>
      let inode := leVal bi
      let rec_len := leVal br
      if inode = 0 ∧ rec_len = 12 then
        match s2.readExact 1 with
        | none => .error .eof
        | some (bz, s3) =>
          match s3.readExact 1 with
          | none => .error .eof
          | some (bf, s4) =>
            if bz.headD 0 ≠ 0 ∨ bf.headD 0 ≠ 0xDE then .error .other
            else
              match s4.readExact 4 with
              | none => .error .eof
              | some (bc, s5) => .ok (.DirEntryTail ⟨rec_len, leVal bc⟩, s5)
      else if ftype then
        match s2.readExact 1 with
        | none => .error .eof
        | some (bn, s3) =>
          match s3.readExact 1 with
          | none => .error .eof
          | some (bt, s4) =>
            let name_len := bn.headD 0
            match s4.readExact name_len with
            | none => .error .eof
            | some (nm, s5) =>
              let real_len := (name_len + 8) % 2 ^ 16
              let align := (rec_len + 2 ^ 16 - real_len) % 2 ^ 16
              match s5.readExact align with
              | none => .error .eof
              | some (_, s6) =>
                .ok (.DirEntry2 ⟨inode, rec_len, name_len, bt.headD 0, nm⟩, s6)
      else
        match s2.readExact 2 with
        | none => .error .eof
        | some (bn, s3) =>
          let name_len := leVal bn
          match s3.readExact name_len with
          | none => .error .eof
          | some (nm, s4) =>
            let real_len := (name_len + 8) % 2 ^ 16
            let align := (rec_len + 2 ^ 16 - real_len) % 2 ^ 16
            match s4.readExact align with
            | none => .error .eof
            | some (_, s5) =>
              .ok (.DirEntry ⟨inode, rec_len, name_len, nm⟩, s5)

/-- extent.rs Extent::read_entry inner loop: parse entries sequentially
    from the length-limited reader; a tail entry or an UnexpectedEof ends
    the extent (Ok(None)); any other I/O error surfaces; the offset
    advances by rec_len and entries named "." or ".." are skipped. fuel is
    initialized to the reader's remaining budget + 1 by read_entry; every
    iteration consumes at least 8 bytes of the budget, so the fuel cannot
    run out. -/
def readEntryLoop (ftype : Bool) : Nat → Strm → Nat →
    Except ExtfsError (Option (DirEntryEnum × Nat))
  | 0, _, _ => .error .OutOfFuel
  | fuel + 1, s, offset =>
    match DirEntryEnum.from_reader s ftype with
    | .error .eof => .ok none
    | .error .other => .error (.Io .other)
    | .ok (.DirEntryTail _, _) => .ok none
    | .ok (e, rest) =>
      let offset' := offset + e.get_rec_len
      if e.is_dot || e.is_dotdot then readEntryLoop ftype fuel rest offset'
      else .ok (some (e, offset'))

/-- extent.rs Extent::read_entry: when offset >= len * block_size the
    extent is exhausted (Ok(None)); otherwise seek to
    get_block_loc() * block_size + offset, limit the reader to
    len * block_size - offset bytes, and parse one entry. -/
def Extent.read_entry (e : Extent) (bs : Nat) (ftype : Bool) (img : Image)
    (offset : Nat) : Except ExtfsError (Option (DirEntryEnum × Nat)) :=
  let pos := e.get_block_loc * bs
  let size := e.len * bs
  if size ≤ offset then .ok none
  else
    let stream : Strm := ⟨img, pos + offset, size - offset⟩
    readEntryLoop ftype (stream.lim + 1) stream offset

/-- read_dir.rs ReadDir iterator state. -/
structure RdState where
  extents : List Extent
  idx : Nat
  extent_offset : Nat
deriving DecidableEq

/-- read_dir.rs ReadDir::next inner loop: scan from the current extent;
    an exhausted extent (Ok(None)) rolls forward to the next one; after a
    successful parse the source compares the new offset against
    `extent.len as u64` (the raw block count, not the byte capacity
    len * block_size) and rolls forward when extent.len >= offset. Returns
    none when the extents are exhausted. fuel is initialized to
    extents.length + 1 by readDirNext; each iteration advances idx, so the
    fuel cannot run out. -/
def readDirLoop (img : Image) (bs : Nat) (ftype : Bool) :
    Nat → RdState → Option (Except ExtfsError (DirEntryEnum × RdState))
  | 0, _ => some (.error .OutOfFuel)
  | fuel + 1, s =>
    match s.extents.get? s.idx with
    | none => none
    | some e =>
      match e.read_entry bs ftype img s.extent_offset with
      | .ok (some (de, off)) =>
        if e.len ≥ off then some (.ok (de, { s with idx := s.idx + 1, extent_offset := 0 }))
        else some (.ok (de, { s with extent_offset := off }))
      | .ok none => readDirLoop img bs ftype fuel { s with idx := s.idx + 1, extent_offset := 0 }
      | .error er => some (.error er)

/-- read_dir.rs ReadDir::next. -/
def readDirNext (img : Image) (bs : Nat) (ftype : Bool) (s : RdState) :
    Option (Except ExtfsError (DirEntryEnum × RdState)) :=
  readDirLoop img bs ftype (s.extents.length + 1) s

/-- fs.rs get_inode_by_path entry-lookup loop (`for x in rd`): iterate the
    directory, stopping at the first entry whose name equals the wanted
    component. fuel bounds the number of iterator steps (the source loop
    is unbounded; a corrupt image with a rec_len of 0 loops forever). -/
def findEntry (img : Image) (bs : Nat) (ftype : Bool) :
    Nat → RdState → List Nat → Except ExtfsError (Option DirEntryEnum)
  | 0, _, _ => .error .OutOfFuel
  | fuel + 1, st, name =>
    match readDirNext img bs ftype st with
    | none => .ok none
    | some (.error er) => .error er
    | some (.ok (de, st')) =>
      if de.get_name = name then .ok (some de)
      else findEntry img bs ftype fuel st' name

/-- std::path::Component, restricted to the Unix variants the source's
    match handles (the Prefix variant is Windows-only and a no-op in the
    source). A Normal component's name is kept as raw bytes. -/
inductive Component where
  | RootDir
  | CurDir
  | ParentDir
  | Normal (name : List Nat)
deriving DecidableEq

/-- fs.rs FileSystem: the parsed superblock, the group descriptor table
    and the owned reader (the byte image). -/
structure FileSystem where
  super_block : SuperBlock
  block_group_descriptors : List BlockGroupDescriptor
  img : Image

/-- fs.rs FileSystem::get_inode: group = (ino - 1) / inodes_per_group
    (u64 arithmetic, wrapping at ino = 0), index = (ino - 1) mod
    inodes_per_group, then decode the inode record at
    inode_table_loc * block_size + index * inode_size. -/
def FileSystem.get_inode (fs : FileSystem) (ino : Nat) : Except ExtfsError Inode :=
  let prev := (ino + (2 ^ 64 - 1)) % 2 ^ 64
  let bgd_num := prev / fs.super_block.inodes_per_group
  match fs.block_group_descriptors.get? bgd_num with
  | none => .error (.BlockGroupDescriptorNotFound bgd_num)
  | some bgd =>
    let inode_table_index := prev % fs.super_block.inodes_per_group
    let pos := bgd.get_inode_table_loc * fs.super_block.get_block_size
               + inode_table_index * fs.super_block.inode_size
    Inode.decode_from fs.img pos

/-- The (name, inode) stack of fs.rs get_inode_by_path. The source pushes
    at the end of a Vec and reads `last()`; the model pushes at the head
    of a List and reads `head?`. -/
abbrev NameStack := List (List Nat × Inode)

/-- fs.rs get_inode_by_path loop body for one path component: RootDir
    pushes inode 2; CurDir is a no-op; ParentDir pops unless the stack
    would lose the root; a Normal name requires the stack top to be a
    directory, scans it for the name, and pushes the found entry's inode. -/
def FileSystem.stepComp (fs : FileSystem) (fuel : Nat) (stack : NameStack) :
    Component → Except ExtfsError NameStack
  | .RootDir =>
    match fs.get_inode 2 with
    | .error er => .error er
    | .ok r => .ok (([47], r) :: stack)
  | .CurDir => .ok stack
  | .ParentDir =>
    if stack.length ≤ 1 then .error .UnexpectedParentDir
    else .ok stack.tail
  | .Normal name =>
    match stack.head? with
    | none => .error .InvalidPath
    | some (_, last) =>
      if last.is_dir then
        match last.extents fuel fs.super_block.get_block_size fs.img with
        | .error er => .error er
        | .ok exts =>
          match findEntry fs.img fs.super_block.get_block_size
              fs.super_block.feature_incompat_filetype fuel ⟨exts, 0, 0⟩ name with
          | .error er => .error er
          | .ok none => .error .NoSuchFileOrDirectory
          | .ok (some de) =>
            match de.get_ino with
            | none => .error .UnexpectedDirEntry
            | some n =>
              match fs.get_inode n with
              | .error er => .error er
              | .ok i => .ok ((name, i) :: stack)
      else .error .IsNotDirecotry

/-- fs.rs get_inode_by_path component loop: fold stepComp over the
    components. -/
def FileSystem.resolveLoop (fs : FileSystem) (fuel : Nat) :
    List Component → NameStack → Except ExtfsError NameStack
  | [], stack => .ok stack
  | c :: rest, stack =>
    match fs.stepComp fuel stack c with
    | .error er => .error er
    | .ok stack' => fs.resolveLoop fuel rest stack'

/-- fs.rs FileSystem::get_inode_by_path: reject non-absolute paths, run
    the component loop from an empty stack, and return the inode at the
    top of the final stack. -/
def FileSystem.get_inode_by_path (fs : FileSystem) (fuel : Nat)
    (comps : List Component) : Except ExtfsError Inode :=
  if comps.head? = some Component.RootDir then
    match fs.resolveLoop fuel comps [] with
    | .error er => .error er
    | .ok stack =>
      match stack.head? with
      | none => .error .InvalidPath
      | some (_, i) => .ok i
  else .error .RequireAbsolutePath

/-- fs.rs FileSystem::read: resolve the path, require a regular file, and
    read the whole file through Inode::read_bytes. -/
def FileSystem.read (fs : FileSystem) (fuel : Nat) (comps : List Component) :
    Except ExtfsError (List Nat) :=
  match fs.get_inode_by_path fuel comps with
  | .error er => .error er
  | .ok i =>
    if i.is_regular then i.read_bytes fuel fs.super_block.get_block_size fs.img
    else .error .IsNotRegular

/-- file.rs File: the positional reader over a file's extents (the owned
    reader itself is passed separately to read). -/
structure File where
  extents : List Extent
  len : Nat
  current : Nat
  block_size : Nat
deriving DecidableEq

/-- file.rs File::read body loop over the extents. offset accumulates the
    byte size of extents skipped by the `continue` branch only; the source
    does not advance it after a successful in-extent read, so within one
    call the extents after a read are checked against a stale offset (see
    claim C2). buf_pos mirrors the source's write position into the
    caller's buffer; the bytes written so far ride along as a list.
    Returns (buf_pos, bytes, new cursor). -/
def File.readLoop (img : Image) (f : File) (bufLen : Nat) :
    List Extent → Nat → Nat → Nat → List Nat → Except ExtfsError (Nat × List Nat × Nat)
  | [], _, buf_pos, current, buf => .ok (buf_pos, buf, current)
  | e :: rest, offset, buf_pos, current, buf =>
    let extent_size := e.len * f.block_size
    if offset + extent_size ≤ current then
      File.readLoop img f bufLen rest (offset + extent_size) buf_pos current buf
    else
      let file_remain := f.len - current
      let buf_remain := bufLen - buf_pos
      match e.read_bytes f.block_size img (current - offset)
          (if file_remain ≤ buf_remain then file_remain else buf_remain) with
      | .error er => .error er
      | .ok temp =>
        let buf_pos' := buf_pos + temp.length
        let current' := current + temp.length
        if bufLen ≤ buf_pos' then .ok (buf_pos', buf ++ temp, current')
        else File.readLoop img f bufLen rest offset buf_pos' current' (buf ++ temp)

/-- file.rs File::read (the std::io::Read impl): an empty buffer or a
    cursor at/after the file length reads 0 bytes, else run the extent
    loop. Returns the read count (the source's usize return), the bytes
    written into the buffer, and the advanced File. -/
def File.read (f : File) (img : Image) (bufLen : Nat) :
    Except ExtfsError (Nat × List Nat × File) :=
  if bufLen = 0 ∨ f.len ≤ f.current then .ok (0, [], f)
  else
    match File.readLoop img f bufLen f.extents 0 0 f.current [] with
    | .error er => .error er
    | .ok (n, buf, current') => .ok (n, buf, { f with current := current' })

/-- file.rs SeekFrom cases (std::io::SeekFrom): Start carries a u64, the
    other two carry an i64. -/
inductive SeekFrom where
  | Start (offset : Nat)
  | FromEnd (offset : Int)
  | Current (offset : Int)
deriving DecidableEq

/-- file.rs File::seek (the std::io::Seek impl): Start sets the cursor to
    the offset unchecked; End requires a negative offset and computes
    len - |offset| with unchecked u64 subtraction; Current adds or
    subtracts |offset| from the cursor unchecked. The u64 arithmetic wraps
    modulo 2^64 (release semantics; a debug build panics on the same
    underflows). -/
def File.seek (f : File) (p : SeekFrom) : Except ExtfsError (Nat × File) :=
  match p with
  | .Start offset => .ok (offset, { f with current := offset })
  | .FromEnd offset =>
    if 0 ≤ offset then .error (.Io .other)
    else
      let c := (f.len + (2 ^ 64 - offset.natAbs % 2 ^ 64)) % 2 ^ 64
      .ok (c, { f with current := c })
  | .Current offset =>
    if offset < 0 then
      let c := (f.current + (2 ^ 64 - offset.natAbs % 2 ^ 64)) % 2 ^ 64
      .ok (c, { f with current := c })
    else
      let c := (f.current + offset.natAbs) % 2 ^ 64
      .ok (c, { f with current := c })

/-- Reading a File to exhaustion: call File::read with a bufLen-byte
    buffer until a call returns count 0, concatenating the bytes. fuel
    bounds the number of calls. -/
def drainFile (img : Image) (bufLen : Nat) : Nat → File → Except ExtfsError (List Nat)
  | 0, _ => .error .OutOfFuel
  | fuel + 1, f =>
    match f.read img bufLen with
    | .error er => .error er
    | .ok (n, bytes, f') =>
      if n = 0 then .ok []
      else
        match drainFile img bufLen fuel f' with
        | .error er => .error er
        | .ok rest => .ok (bytes ++ rest)

/-- inode.rs Inode::read_file: walk the extent tree and wrap the extents
    in a File with cursor 0. -/
def Inode.read_file (ino : Inode) (fuel bs : Nat) (img : Image) :
    Except ExtfsError File :=
  match ino.extents fuel bs img with
  | .error e => .error e
  | .ok exts => .ok { extents := exts, len := ino.get_size, current := 0, block_size := bs }

/-- fs.rs FileSystem::open: resolve the path, require a regular file,
    return the positional File over its extents. -/
def FileSystem.open (fs : FileSystem) (fuel : Nat) (comps : List Component) :
    Except ExtfsError File :=
  match fs.get_inode_by_path fuel comps with
  | .error er => .error er
  | .ok i =>
    if i.is_regular then i.read_file fuel fs.super_block.get_block_size fs.img
    else .error .IsNotRegular

/- Concrete test image. A small but fully consistent ext4 byte image used
   to instantiate the theorems: block size 1024, inode size 160 (the
   record footprint), inode table at block 0.
     ino 2 = /      (directory, dir data in block 1)
     ino 3 = /a     (directory, dir data in block 2)
     ino 4 = /f     (regular, 3072 bytes over three 1-block extents at
                     blocks 3, 4, 5, filled with 11s, 22s, 33s)
     ino 5 = /a/b   (regular, the 4 bytes 98 101 101 102 at block 6)
     ino 6 = /a/x   (an all-zero inode record) -/

/-- Little-endian u16 byte pair. -/
def u16b (n : Nat) : List Nat := [n % 256, n / 256 % 256]

/-- Little-endian u32 byte quadruple. -/
def u32b (n : Nat) : List Nat :=
  [n % 256, n / 256 % 256, n / 65536 % 256, n / 16777216 % 256]

/-- n zero bytes. -/
def zeros (n : Nat) : List Nat := List.replicate n 0

/-- On-disk extent header bytes (magic 0xF30A, max 4, generation 0). -/
def ehBytes (entries depth : Nat) : List Nat :=
  u16b 0xF30A ++ u16b entries ++ u16b 4 ++ u16b depth ++ u32b 0

/-- On-disk leaf extent bytes (start_hi = 0). -/
def extBytes (logical len startLo : Nat) : List Nat :=
  u32b logical ++ u16b len ++ u16b 0 ++ u32b startLo

/-- A 60-byte inode block field holding a depth-0 extent root with the
    given (logical, len, start_lo) leaves. -/
def inoBlockBytes (exts : List (Nat × Nat × Nat)) : List Nat :=
  ehBytes exts.length 0 ++ (exts.map fun t => extBytes t.1 t.2.1 t.2.2).flatten
    ++ zeros (48 - 12 * exts.length)

/-- A 160-byte on-disk inode record (uid/gid/times zero, flags =
    INODE_FLAG_EXTENTS, size_high = 0). -/
def inodeBytes (mode sizeLo : Nat) (blk : List Nat) : List Nat :=
  u16b mode ++ u16b 0 ++ u32b sizeLo ++ u32b 0 ++ u32b 0 ++ u32b 0 ++ u32b 0
    ++ u16b 0 ++ u16b 0 ++ u32b 0 ++ u32b 0x80000 ++ u32b 0 ++ blk ++ zeros 60

/-- An on-disk filetype-flavoured directory entry. -/
def dirEntryBytes (ino recLen ft : Nat) (name : List Nat) : List Nat :=
  u32b ino ++ u16b recLen ++ [name.length, ft] ++ name ++ zeros (recLen - 8 - name.length)

/-- An on-disk directory tail entry (checksum 0). -/
def tailBytes : List Nat := u32b 0 ++ u16b 12 ++ [0, 0xDE] ++ u32b 0

/-- Root directory entries (at the front of block 1): a -> ino 3 (dir),
    f -> ino 4 (regular), then the tail; the rest of the block is zero. -/
def rootDirEntries : List Nat :=
  dirEntryBytes 3 12 2 [97] ++ dirEntryBytes 4 12 1 [102] ++ tailBytes

/-- Directory entries of /a (at the front of block 2): b -> ino 5
    (regular), x -> ino 6, then the tail. -/
def aDirEntries : List Nat :=
  dirEntryBytes 5 12 1 [98] ++ dirEntryBytes 6 12 2 [120] ++ tailBytes

/-- The inode table segment of the image: inodes 2..6 at byte offsets
    160, 320, 480, 640, 800 (inode 1 and inode 6 are all-zero records). -/
def inoTableBytes : List Nat :=
  zeros 160
    ++ inodeBytes 0x41ED 1024 (inoBlockBytes [(0, 1, 1)])
    ++ inodeBytes 0x41ED 1024 (inoBlockBytes [(0, 1, 2)])
    ++ inodeBytes 0x81A4 3072 (inoBlockBytes [(0, 1, 3), (1, 1, 4), (2, 1, 5)])
    ++ inodeBytes 0x81A4 4 (inoBlockBytes [(0, 1, 6)])

/-- The byte at position i of the example image: the inode table in block
    0, the two directory blocks, the three content blocks of /f, and the
    4 content bytes of /a/b. -/
def imgExData (i : Nat) : Nat :=
  if i < 800 then inoTableBytes.getD i 0
  else if i < 1024 then 0
  else if i < 2048 then rootDirEntries.getD (i - 1024) 0
  else if i < 3072 then aDirEntries.getD (i - 2048) 0
  else if i < 4096 then 11
  else if i < 5120 then 22
  else if i < 6144 then 33
  else [98, 101, 101, 102].getD (i - 6144) 0

/-- The example disk image (6148 bytes). -/
def imgEx : Image := ⟨imgExData, 6148⟩

/-- The example superblock (block size 1024, filetype + extents + flex_bg
    feature bits, one block group holding 32 inodes of 160 bytes). -/
def sbEx : SuperBlock :=
  { inodes_count := 32, blocks_count_lo := 7, log_block_size := 0,
    blocks_per_group := 8192, inodes_per_group := 32, magic := 0xEF53,
    inode_size := 160, feature_incompat := 0x242, blocks_count_hi := 0 }

/-- The example filesystem handle. -/
def fsEx : FileSystem :=
  { super_block := sbEx, block_group_descriptors := [⟨0, 0⟩], img := imgEx }

/-- Path /a/b as components. -/
def compsAB : List Component := [.RootDir, .Normal [97], .Normal [98]]

/-- Path /a/./b as components. -/
def compsADotB : List Component := [.RootDir, .Normal [97], .CurDir, .Normal [98]]

/-- Path /a/x as components. -/
def compsAX : List Component := [.RootDir, .Normal [97], .Normal [120]]

/-- Path /a/x/../b as components. -/
def compsAXUpB : List Component :=
  [.RootDir, .Normal [97], .Normal [120], .ParentDir, .Normal [98]]

/-- Path /f as components. -/
def compsF : List Component := [.RootDir, .Normal [102]]

/-- A 12-block directory extent at physical block 0. -/
def c4ext : Extent := { block := 0, len := 12, start_hi := 0, start_lo := 0 }

/-- A directory data area holding two 12-byte entries (names a and b)
    followed by the tail. -/
def c4bytes : List Nat := dirEntryBytes 1 12 1 [97] ++ dirEntryBytes 2 12 1 [98] ++ tailBytes

/-- The directory image for the roll-forward example. -/
def c4img : Image := Image.ofList c4bytes

/-- A 13-byte filetype directory entry stream: inode 1, rec_len 13,
    name_len 1, file_type 1, name a, 4 alignment bytes. -/
def c9bytes : List Nat := [1, 0, 0, 0, 13, 0, 1, 1, 97, 0, 0, 0, 0]

/-- A 12-byte filetype directory entry stream: inode 2, rec_len 12,
    name_len 1, file_type 2, name b, 3 alignment bytes. -/
def c9okBytes : List Nat := [2, 0, 0, 0, 12, 0, 1, 2, 98, 0, 0, 0]

/-- A decodable superblock record whose inode-side ceil numerator wraps in
    u32: inodes_count = 2^32 - 1 with inodes_per_group = 2. -/
def sbC7 : SuperBlock :=
  { inodes_count := 2 ^ 32 - 1, blocks_count_lo := 0, log_block_size := 0,
    blocks_per_group := 1, inodes_per_group := 2, magic := 0xEF53,
    inode_size := 256, feature_incompat := 0x242, blocks_count_hi := 0 }

/-- A superblock record that passes from_reader's validations (both
    group-count sides compute 2) while its 64-bit block count
    2^32 exceeds u32: blocks_count_hi = 1, blocks_count_lo = 0,
    blocks_per_group = 2^31, inodes_count = 4, inodes_per_group = 2. -/
def sbC8 : SuperBlock :=
  { inodes_count := 4, blocks_count_lo := 0, log_block_size := 0,
    blocks_per_group := 2 ^ 31, inodes_per_group := 2, magic := 0xEF53,
    inode_size := 256, feature_incompat := 0x242, blocks_count_hi := 1 }

/-- An inline symlink inode: size 9, the target hello.txt held in the
    first 9 bytes of the 60-byte block field. -/
def inoLnkEx : Inode :=
  { mode := 0xA1FF, size_lo := 9, flags := 0,
    block := [104, 101, 108, 108, 111, 46, 116, 120, 116] ++ zeros 51,
    size_high := 0 }

/-- A 5-byte File with cursor 3 for the seek example. -/
def fileEx10 : File := { extents := [], len := 5, current := 3, block_size := 1024 }

/-- The inode record of /a/b as decoded from the example image. -/
def inoBex : Inode :=
  { mode := 0x81A4, size_lo := 4, flags := 0x80000,
    block := inoBlockBytes [(0, 1, 6)], size_high := 0 }

/-- The inode record of /a/x as decoded from the example image. -/
def inoXex : Inode :=
  { mode := 0, size_lo := 0, flags := 0, block := zeros 60, size_high := 0 }

/-- The single extent of /a/b. -/
def extBex : Extent := { block := 0, len := 1, start_hi := 0, start_lo := 6 }

/- Theorems. -/

/-- An image read returns exactly the requested number of bytes. -/
theorem readAt_length (img : Image) (pos n : Nat) : (img.readAt pos n).length = n := by
  simp [Image.readAt]

/-- extent.rs Extent::read_bytes returns min(len * block_size, max) bytes
    whenever it succeeds. -/
theorem read_bytes_ok_length (e : Extent) (bs : Nat) (img : Image) (start mx : Nat)
    (buf : List Nat) (h : e.read_bytes bs img start mx = .ok buf) :
    buf.length = if mx < e.len * bs then mx else e.len * bs := by
  simp only [Extent.read_bytes] at h
  split at h
  next hc =>
    split at h
    · cases h
      rw [if_pos hc]
      exact readAt_length ..
    · cases h
  next hc =>
    split at h
    · cases h
      rw [if_neg hc]
      exact readAt_length ..
    · cases h

/-- The Inode::read_bytes loop returns exactly `size` bytes whenever it
    succeeds and the extents' total byte capacity covers `size`. -/
theorem readBytesLoop_length (img : Image) (bs : Nat) :
    ∀ (exts : List Extent) (size : Nat) (data : List Nat),
      readBytesLoop img bs exts size = .ok data →
      size ≤ extentsCap bs exts → data.length = size := by
  intro exts
  induction exts with
  | nil =>
    intro size data h hcap
    simp only [readBytesLoop] at h
    cases h
    simp only [extentsCap] at hcap
    simp only [List.length_nil]
    omega
  | cons e rest ih =>
    intro size data h hcap
    simp only [readBytesLoop] at h
    split at h
    next hz =>
      cases h
      simpa using hz.symm
    next hz =>
      cases hre : e.read_bytes bs img 0 size with
      | error er => simp only [hre] at h; cases h
      | ok buf =>
        simp only [hre] at h
        have hbuf := read_bytes_ok_length e bs img 0 size buf hre
        have hor : (size < e.len * bs ∧ buf.length = size) ∨
            (¬ size < e.len * bs ∧ buf.length = e.len * bs) := by
          by_cases hc : size < e.len * bs
          · exact Or.inl ⟨hc, by rw [hbuf, if_pos hc]⟩
          · exact Or.inr ⟨hc, by rw [hbuf, if_neg hc]⟩
        have hble : buf.length ≤ size := by rcases hor with ⟨h1, h2⟩ | ⟨h1, h2⟩ <;> omega
        rw [if_pos hble] at h
        cases hloop : readBytesLoop img bs rest (size - buf.length) with
        | error er => simp only [hloop] at h; cases h
        | ok tl =>
          simp only [hloop] at h
          cases h
          simp only [extentsCap] at hcap
          have htl := ih (size - buf.length) tl hloop
            (by rcases hor with ⟨h1, h2⟩ | ⟨h1, h2⟩ <;> omega)
          simp only [List.length_append, htl]
          omega

/-- Claim C1: for every path resolving to an inode whose extent walk
    succeeds and whose extents' total byte capacity
    (sum of len * block_size) covers the file size, a successful facade
    read (which runs Inode::read_bytes over those extents, each extent
    contributing min(len * block_size, remaining) bytes) returns exactly
    (size_high << 32 | size_lo) bytes. -/
theorem c1_read_full_file_length (fs : FileSystem) (fuel : Nat) (comps : List Component)
    (ino : Inode) (exts : List Extent) (data : List Nat)
    (hres : fs.get_inode_by_path fuel comps = .ok ino)
    (hext : ino.extents fuel fs.super_block.get_block_size fs.img = .ok exts)
    (hcap : ino.get_size ≤ extentsCap fs.super_block.get_block_size exts)
    (hread : fs.read fuel comps = .ok data) :
    data.length = ino.get_size := by
  simp only [FileSystem.read, hres] at hread
  by_cases hreg : ino.is_regular
  · rw [if_pos hreg] at hread
    simp only [Inode.read_bytes, hext] at hread
    exact readBytesLoop_length _ _ exts ino.get_size data hread hcap
  · rw [if_neg hreg] at hread
    cases hread

/-- Witness for C1 at /a/b of the example image: the 4-byte file comes
    back with exactly get_size = 4 bytes. -/
theorem c1_witness :
    ([98, 101, 101, 102] : List Nat).length = inoBex.get_size ∧
    fsEx.read 40 compsAB = .ok [98, 101, 101, 102] :=
  ⟨c1_read_full_file_length fsEx 40 compsAB inoBex [extBex] [98, 101, 101, 102]
      rfl rfl (by decide) rfl, rfl⟩

/-- The source node parse produces exactly the spec node parse's records,
    tagged into the mixed queue type. -/
theorem parse_extents_spec (s : Strm) :
    parse_extents s = (specParseNode s).map
      (Sum.elim (List.map ExtentOrIdx.Extent) (List.map ExtentOrIdx.Idx)) := by
  unfold parse_extents specParseNode
  cases ExtentHeader.from_reader s with
  | error e => rfl
  | ok p =>
    obtain ⟨eh, r⟩ := p
    by_cases hd : eh.depth = 0
    · simp only [if_pos hd]
      cases decodeExtents eh.entries r with
      | none => rfl
      | some q => rfl
    · simp only [if_neg hd]
      cases decodeIdxs eh.entries r with
      | none => rfl
      | some q => rfl

/-- idxsOf distributes over append. -/
theorem idxsOf_append (a b : List ExtentOrIdx) : idxsOf (a ++ b) = idxsOf a ++ idxsOf b := by
  induction a with
  | nil => rfl
  | cons hd tl ih => cases hd <;> simp [idxsOf, ih]

/-- extentsOf distributes over append. -/
theorem extentsOf_append (a b : List ExtentOrIdx) :
    extentsOf (a ++ b) = extentsOf a ++ extentsOf b := by
  induction a with
  | nil => rfl
  | cons hd tl ih => cases hd <;> simp [extentsOf, ih]

/-- A queue of tagged leaves holds no indices. -/
theorem idxsOf_mapExtent (ls : List Extent) : idxsOf (ls.map ExtentOrIdx.Extent) = [] := by
  induction ls with
  | nil => rfl
  | cons hd tl ih => simp [idxsOf, ih]

/-- The leaves of a queue of tagged leaves. -/
theorem extentsOf_mapExtent (ls : List Extent) : extentsOf (ls.map ExtentOrIdx.Extent) = ls := by
  induction ls with
  | nil => rfl
  | cons hd tl ih => simp [extentsOf, ih]

/-- The indices of a queue of tagged indices. -/
theorem idxsOf_mapIdx (js : List ExtentIdx) : idxsOf (js.map ExtentOrIdx.Idx) = js := by
  induction js with
  | nil => rfl
  | cons hd tl ih => simp [idxsOf, ih]

/-- A queue of tagged indices holds no leaves. -/
theorem extentsOf_mapIdx (js : List ExtentIdx) : extentsOf (js.map ExtentOrIdx.Idx) = [] := by
  induction js with
  | nil => rfl
  | cons hd tl ih => simp [extentsOf, ih]

/-- When popRun finds no index, the queue's leaves are exactly the popped
    prefix and it holds no indices. -/
theorem popRun_none_facts : ∀ (q : List ExtentOrIdx) (es : List Extent),
    popRun q = (es, none) → extentsOf q = es ∧ idxsOf q = [] := by
  intro q
  induction q with
  | nil =>
    intro es h
    cases h
    exact ⟨rfl, rfl⟩
  | cons hd tl ih =>
    intro es h
    cases hd with
    | Extent e =>
      rcases hp : popRun tl with ⟨es', o⟩
      simp only [popRun, hp] at h
      cases h
      obtain ⟨h1, h2⟩ := ih es' hp
      exact ⟨by simp [extentsOf, h1], by simp [idxsOf, h2]⟩
    | Idx i =>
      simp only [popRun] at h
      cases h

/-- When popRun finds an index, the queue decomposes as the popped leaf
    prefix, that index, and the queue behind it. -/
theorem popRun_some_facts : ∀ (q : List ExtentOrIdx) (es : List Extent) (i : ExtentIdx)
    (q' : List ExtentOrIdx), popRun q = (es, some (i, q')) →
    extentsOf q = es ++ extentsOf q' ∧ idxsOf q = i :: idxsOf q' := by
  intro q
  induction q with
  | nil =>
    intro es i q' h
    cases h
  | cons hd tl ih =>
    intro es i q' h
    cases hd with
    | Extent e =>
      rcases hp : popRun tl with ⟨es', o⟩
      simp only [popRun, hp] at h
      cases o with
      | none => cases h
      | some p =>
        obtain ⟨i', q''⟩ := p
        cases h
        obtain ⟨h1, h2⟩ := ih es' i q' hp
        exact ⟨by simp [extentsOf, h1], by simp [idxsOf, h2]⟩
    | Idx j =>
      simp only [popRun] at h
      cases h
      exact ⟨rfl, rfl⟩

/-- The source walk over a mixed queue equals the spec walk over the
    queue's indices, with the queue's leaves prepended: the single-queue
    BFS of the source and the index-FIFO walk of the spec yield the same
    leaf order, the same errors, and the same fuel consumption. -/
theorem walk_eq_specW (img : Image) (bs : Nat) :
    ∀ (fuel : Nat) (q : List ExtentOrIdx),
      walk img bs fuel q = (specW img bs fuel (idxsOf q)).map (fun l => extentsOf q ++ l) := by
  intro fuel
  induction fuel with
  | zero =>
    intro q
    rcases hp : popRun q with ⟨es, o⟩
    rw [walk]
    cases o with
    | none =>
      obtain ⟨he, hi⟩ := popRun_none_facts q es hp
      rw [hi, he]
      simp only [hp, specW, Except.map, List.append_nil]
    | some p =>
      obtain ⟨i, q'⟩ := p
      obtain ⟨he, hi⟩ := popRun_some_facts q es i q' hp
      rw [hi]
      simp only [hp, specW, Except.map]
  | succ fuel ih =>
    intro q
    rcases hp : popRun q with ⟨es, o⟩
    rw [walk]
    cases o with
    | none =>
      obtain ⟨he, hi⟩ := popRun_none_facts q es hp
      rw [hi, he]
      simp only [hp, specW, Except.map, List.append_nil]
    | some p =>
      obtain ⟨i, q'⟩ := p
      obtain ⟨he, hi⟩ := popRun_some_facts q es i q' hp
      rw [hi, he]
      simp only [hp, parse_extents_spec]
      cases hs : specParseNode (Strm.at img (i.get_extent_loc * bs)) with
      | error er => simp only [hs, specW, Except.map]
      | ok v =>
        cases v with
        | inl ls =>
          simp only [hs, Except.map, Sum.elim, specW]
          rw [ih (q' ++ ls.map ExtentOrIdx.Extent)]
          simp only [idxsOf_append, extentsOf_append, idxsOf_mapExtent,
            extentsOf_mapExtent, List.append_nil]
          cases specW img bs fuel (idxsOf q') <;>
            simp [Except.map, List.append_assoc]
        | inr js =>
          simp only [hs, Except.map, Sum.elim, specW]
          rw [ih (q' ++ js.map ExtentOrIdx.Idx)]
          simp only [idxsOf_append, extentsOf_append, idxsOf_mapIdx,
            extentsOf_mapIdx, List.append_nil]
          cases specW img bs fuel (idxsOf q' ++ js) <;>
            simp [Except.map, List.append_assoc]

/-- Claim C3: for every inode, fuel, block size and image, Inode::extents
    (parse the root header from the inode's 60-byte block field, then
    drive a single FIFO queue, reading each index's child node at
    (leaf_hi << 32 | leaf_lo) * block_size and failing with
    InvalidExtentHeaderMagic m on any visited header whose magic
    m != 0xF30A) returns exactly the leaf list of the spec's BFS walk:
    the root's own leaves when depth == 0, and otherwise the leaves
    collected index by index from the FIFO of indices in BFS order. -/
theorem c3_extents_match_spec_walk (ino : Inode) (fuel bs : Nat) (img : Image) :
    ino.extents fuel bs img = specExtents ino fuel bs img := by
  unfold Inode.extents specExtents
  rw [parse_extents_spec]
  cases hs : specParseNode (Strm.at (Image.ofList ino.block) 0) with
  | error e => rfl
  | ok v =>
    cases v with
    | inl ls =>
      simp only [hs, Except.map, Sum.elim]
      rw [walk_eq_specW]
      simp only [idxsOf_mapExtent, extentsOf_mapExtent, specW, Except.map, List.append_nil]
    | inr js =>
      simp only [hs, Except.map, Sum.elim]
      rw [walk_eq_specW]
      simp only [idxsOf_mapIdx, extentsOf_mapIdx]
      cases specW img bs fuel js <;> simp [Except.map]

/-- One step of the resolver's component loop. -/
theorem resolveLoop_cons (fs : FileSystem) (fuel : Nat) (c : Component)
    (rest : List Component) (st : NameStack) :
    fs.resolveLoop fuel (c :: rest) st =
      match fs.stepComp fuel st c with
      | .error er => .error er
      | .ok st' => fs.resolveLoop fuel rest st' := rfl

/-- A CurDir component leaves the stack unchanged. -/
theorem stepComp_curdir (fs : FileSystem) (fuel : Nat) (st : NameStack) :
    fs.stepComp fuel st .CurDir = .ok st := rfl

/-- A successful RootDir step pushes ("/", root inode) onto the stack. -/
theorem stepComp_root_shape (fs : FileSystem) (fuel : Nat) (st st' : NameStack)
    (h : fs.stepComp fuel st .RootDir = .ok st') :
    ∃ r, fs.get_inode 2 = .ok r ∧ st' = ([47], r) :: st := by
  simp only [FileSystem.stepComp] at h
  cases hr : fs.get_inode 2 with
  | error er => rw [hr] at h; cases h
  | ok r =>
    rw [hr] at h
    cases h
    exact ⟨r, rfl, rfl⟩

/-- A successful Normal step pushes (name, found inode) onto the stack. -/
theorem stepComp_normal_shape (fs : FileSystem) (fuel : Nat) (st st' : NameStack)
    (name : List Nat) (h : fs.stepComp fuel st (.Normal name) = .ok st') :
    ∃ i, st' = (name, i) :: st := by
  simp only [FileSystem.stepComp] at h
  split at h
  · cases h
  · split at h
    · split at h
      · cases h
      · split at h
        · cases h
        · cases h
        · split at h
          · cases h
          · split at h
            · cases h
            next i hino =>
              cases h
              exact ⟨i, rfl⟩
    · cases h

/-- Claim C5: path resolution treats `.` as a no-op and `..` as a stack
    pop. Whenever /a/b resolves to an inode and /a/x resolves (x an
    existing entry of the directory a), the paths /a/./b and /a/x/../b
    resolve to the same inode as /a/b. -/
theorem c5_path_resolution (fs : FileSystem) (fuel : Nat) (a b x : List Nat) (ib ix : Inode)
    (h1 : fs.get_inode_by_path fuel [.RootDir, .Normal a, .Normal b] = .ok ib)
    (h2 : fs.get_inode_by_path fuel [.RootDir, .Normal a, .Normal x] = .ok ix) :
    fs.get_inode_by_path fuel [.RootDir, .Normal a, .CurDir, .Normal b] = .ok ib ∧
    fs.get_inode_by_path fuel [.RootDir, .Normal a, .Normal x, .ParentDir, .Normal b] =
      .ok ib := by
  unfold FileSystem.get_inode_by_path at h1 h2 ⊢
  simp only [List.head?_cons, if_true] at h1 h2 ⊢
  cases hr : fs.stepComp fuel [] .RootDir with
  | error er => simp only [resolveLoop_cons, hr] at h1; cases h1
  | ok s1 =>
    simp only [resolveLoop_cons, hr] at h1 h2 ⊢
    cases ha : fs.stepComp fuel s1 (.Normal a) with
    | error er => simp only [resolveLoop_cons, ha] at h1; cases h1
    | ok s2 =>
      simp only [resolveLoop_cons, ha] at h1 h2 ⊢
      cases hb : fs.stepComp fuel s2 (.Normal b) with
      | error er => simp only [resolveLoop_cons, hb] at h1; cases h1
      | ok s3 =>
        simp only [resolveLoop_cons, hb] at h1
        simp only [FileSystem.resolveLoop] at h1
        cases hx : fs.stepComp fuel s2 (.Normal x) with
        | error er => simp only [resolveLoop_cons, hx] at h2; cases h2
        | ok s2x =>
          obtain ⟨r, hroot, hs1⟩ := stepComp_root_shape fs fuel [] s1 hr
          obtain ⟨ia, hs2⟩ := stepComp_normal_shape fs fuel s1 s2 a ha
          obtain ⟨ixv, hs2x⟩ := stepComp_normal_shape fs fuel s2 s2x x hx
          have hpd : fs.stepComp fuel s2x .ParentDir = .ok s2 := by
            subst hs2x hs2 hs1
            simp [FileSystem.stepComp]
          constructor
          · simp only [resolveLoop_cons, stepComp_curdir, hb]
            simp only [FileSystem.resolveLoop]
            exact h1
          · simp only [resolveLoop_cons, hx, hpd, hb]
            simp only [FileSystem.resolveLoop]
            exact h1

/-- Witness for C5 at the example image: /a/b, /a/./b and /a/x/../b all
    resolve to the inode of b. -/
theorem c5_witness :
    fsEx.get_inode_by_path 40 compsADotB = .ok inoBex ∧
    fsEx.get_inode_by_path 40 compsAXUpB = .ok inoBex :=
  c5_path_resolution fsEx 40 [97] [98] [120] inoBex inoXex rfl rfl

/-- Claim C10: File::seek never validates that the resulting cursor is in
    bounds. SeekFrom::Start accepts any offset, including positions past
    the file length, and returns Ok with that position; for
    SeekFrom::End with a negative offset whose magnitude exceeds the file
    length, and for SeekFrom::Current with a negative offset whose
    magnitude exceeds the cursor, the unchecked u64 subtraction underflows
    and wraps (a panic in a debug build), returning Ok with an
    out-of-bounds cursor greater than the file length instead of an Err. -/
theorem c10_seek_unchecked (f : File) (o : Nat) (eoff coff : Int)
    (he1 : eoff < 0) (he2 : f.len < eoff.natAbs) (he3 : eoff.natAbs ≤ 2 ^ 63)
    (hc1 : coff < 0) (hc2 : f.current < coff.natAbs) (hc3 : coff.natAbs ≤ 2 ^ 63) :
    f.seek (.Start o) = .ok (o, { f with current := o }) ∧
    (∃ c, f.seek (.FromEnd eoff) = .ok (c, { f with current := c }) ∧
      c = f.len + (2 ^ 64 - eoff.natAbs) ∧ f.len < c) ∧
    (∃ c, f.seek (.Current coff) = .ok (c, { f with current := c }) ∧
      c = f.current + (2 ^ 64 - coff.natAbs) ∧ f.current < c) := by
  refine ⟨rfl, ?_, ?_⟩
  · refine ⟨f.len + (2 ^ 64 - eoff.natAbs), ?_, rfl, by omega⟩
    have hm : eoff.natAbs % 2 ^ 64 = eoff.natAbs := Nat.mod_eq_of_lt (by omega)
    have hv : (f.len + (2 ^ 64 - eoff.natAbs)) % 2 ^ 64 = f.len + (2 ^ 64 - eoff.natAbs) :=
      Nat.mod_eq_of_lt (by omega)
    simp only [File.seek, hm, hv, if_neg (by omega : ¬ (0 : Int) ≤ eoff)]
  · refine ⟨f.current + (2 ^ 64 - coff.natAbs), ?_, rfl, by omega⟩
    have hm : coff.natAbs % 2 ^ 64 = coff.natAbs := Nat.mod_eq_of_lt (by omega)
    have hv : (f.current + (2 ^ 64 - coff.natAbs)) % 2 ^ 64 = f.current + (2 ^ 64 - coff.natAbs) :=
      Nat.mod_eq_of_lt (by omega)
    simp only [File.seek, hm, hv, if_pos hc1]

/-- Witness for C10 at the concrete 5-byte file with cursor 3: Start 7,
    End -7 and Current -4 all return Ok with out-of-bounds cursors. -/
theorem c10_witness :
    fileEx10.seek (.Start 7) = .ok (7, { fileEx10 with current := 7 }) ∧
    (∃ c, fileEx10.seek (.FromEnd (-7)) = .ok (c, { fileEx10 with current := c }) ∧
      c = fileEx10.len + (2 ^ 64 - (-7 : Int).natAbs) ∧ fileEx10.len < c) ∧
    (∃ c, fileEx10.seek (.Current (-4)) = .ok (c, { fileEx10 with current := c }) ∧
      c = fileEx10.current + (2 ^ 64 - (-4 : Int).natAbs) ∧ fileEx10.current < c) :=
  c10_seek_unchecked fileEx10 7 (-7) (-4) (by decide) (by decide) (by decide)
    (by decide) (by decide) (by decide)

/-- Claim C6: for every symlink inode with the on-disk 60-byte block
    field, read_link returns exactly the first `size` bytes of the block
    field when size <= 60, and otherwise delegates to the extent-based
    full-file read; the branch changes exactly at the 60-byte boundary. -/
theorem c6_read_link_branches (ino : Inode) (fuel bs : Nat) (img : Image)
    (hblk : ino.block.length = 60) (hsym : ino.is_symlink = true) :
    (ino.get_size ≤ 60 → ino.read_link fuel bs img = .ok (ino.block.take ino.get_size)) ∧
    (60 < ino.get_size → ino.read_link fuel bs img = ino.read_bytes fuel bs img) := by
  constructor
  · intro h
    simp only [Inode.read_link, hblk, if_pos h]
  · intro h
    simp only [Inode.read_link, hblk, if_neg (by omega : ¬ ino.get_size ≤ 60)]

/-- Witness for C6 at the concrete inline symlink inode (size 9): the
    first 9 block bytes come back. -/
theorem c6_witness :
    inoLnkEx.read_link 5 1024 imgEx = .ok (inoLnkEx.block.take inoLnkEx.get_size) ∧
    inoLnkEx.block.length = 60 ∧ inoLnkEx.is_symlink = true ∧ inoLnkEx.get_size ≤ 60 :=
  ⟨(c6_read_link_branches inoLnkEx 5 1024 imgEx (by decide) (by decide)).1 (by decide),
   by decide, by decide, by decide⟩

/-- Claim C7 counterexample: at sbC7 (inodes_count = 2^32 - 1,
    inodes_per_group = 2, block side 0 of 1) the mathematical ceils
    disagree (0 against 2^31), so the claim demands a
    BlockGroupCountMismatch failure, but the source's u32 inode-side
    numerator wraps to 0 and from_reader accepts the record. -/
theorem c7_counterexample :
    SuperBlock.from_record sbC7 = .ok sbC7 ∧
    (sbC7.get_block_count + sbC7.blocks_per_group - 1) / sbC7.blocks_per_group ≠
      (sbC7.inodes_count + sbC7.inodes_per_group - 1) / sbC7.inodes_per_group :=
  ⟨rfl, by decide⟩

/-- Claim C7 as amended: parsing fails with InvalidSuperBlockMagic(m)
    exactly when the decoded magic m != 0xEF53 (checked first), and fails
    with BlockGroupCountMismatch exactly when the wrapped numerators
    disagree: (block_count + blocks_per_group - 1) computed in u64,
    divided by blocks_per_group, against (inodes_count + inodes_per_group
    - 1) computed in u32, divided by inodes_per_group; these equal the
    mathematical ceils whenever the sums do not overflow. When both
    validations pass, the decoded record is returned unchanged. -/
theorem c7_amended (sb : SuperBlock) (hb : 0 < sb.blocks_per_group)
    (hi : 0 < sb.inodes_per_group) :
    (sb.magic ≠ 0xEF53 → sb.from_record = .error (.InvalidSuperBlockMagic sb.magic)) ∧
    (sb.magic = 0xEF53 →
      ((sb.get_block_count + sb.blocks_per_group + (2 ^ 64 - 1)) % 2 ^ 64 / sb.blocks_per_group ≠
          (sb.inodes_count + sb.inodes_per_group + (2 ^ 32 - 1)) % 2 ^ 32 / sb.inodes_per_group →
        sb.from_record = .error (.BlockGroupCountMismatch
          ((sb.get_block_count + sb.blocks_per_group + (2 ^ 64 - 1)) % 2 ^ 64 /
            sb.blocks_per_group)
          ((sb.inodes_count + sb.inodes_per_group + (2 ^ 32 - 1)) % 2 ^ 32 /
            sb.inodes_per_group))) ∧
      ((sb.get_block_count + sb.blocks_per_group + (2 ^ 64 - 1)) % 2 ^ 64 / sb.blocks_per_group =
          (sb.inodes_count + sb.inodes_per_group + (2 ^ 32 - 1)) % 2 ^ 32 / sb.inodes_per_group →
        sb.from_record = .ok sb)) := by
  refine ⟨fun hmag => ?_, fun hmag => ⟨fun hne => ?_, fun heq => ?_⟩⟩
  · simp only [SuperBlock.from_record, if_pos hmag]
  · simp only [SuperBlock.from_record, hmag]
    rw [if_neg (by simp), if_pos hne]
  · simp only [SuperBlock.from_record, hmag]
    rw [if_neg (by simp), if_neg (fun hn => hn heq)]

/-- Witness for C7 at the consistent example superblock: both wrapped
    group counts are 1 and the record is accepted. -/
theorem c7_witness :
    SuperBlock.from_record sbEx = .ok sbEx ∧
    0 < sbEx.blocks_per_group ∧ 0 < sbEx.inodes_per_group :=
  ⟨((c7_amended sbEx (by decide) (by decide)).2 rfl).2 (by decide), by decide, by decide⟩

/-- Claim C8 counterexample at a parsed superblock: sbC8 passes
    from_reader's validations unchanged (both wrapped group counts are 2),
    its 64-bit block count is 2^32 with blocks_per_group = 2^31, so the
    claimed full-64-bit formula gives 2^32 / 2^31 + 1 = 3 descriptor
    groups, but get_block_group_count truncates the count to u32 first
    and returns 0 / 2^31 + 1 = 1. -/
theorem c8_counterexample :
    SuperBlock.from_record sbC8 = .ok sbC8 ∧
    sbC8.get_block_group_count = 1 ∧
    sbC8.get_block_count / sbC8.blocks_per_group + 1 = 3 ∧
    sbC8.get_block_group_count ≠ sbC8.get_block_count / sbC8.blocks_per_group + 1 :=
  ⟨rfl, rfl, by decide, by decide⟩

/-- Claim C8 as amended: the group-count accessor used to size the
    descriptor table equals (block_count mod 2^32) / blocks_per_group + 1
    whenever that value is below 2^32: the 64-bit block count is truncated
    to u32 (`as u32`) before the integer division, and the u32 result
    itself wraps when the quotient + 1 reaches 2^32. -/
theorem c8_amended (sb : SuperBlock)
    (h : sb.get_block_count % 2 ^ 32 / sb.blocks_per_group + 1 < 2 ^ 32) :
    sb.get_block_group_count = sb.get_block_count % 2 ^ 32 / sb.blocks_per_group + 1 :=
  Nat.mod_eq_of_lt h

/-- Witness for C8 at the example superblock: 7 blocks in groups of 8192
    give descriptor count 1. -/
theorem c8_witness :
    sbEx.get_block_count % 2 ^ 32 / sbEx.blocks_per_group + 1 < 2 ^ 32 ∧
    sbEx.get_block_group_count = sbEx.get_block_count % 2 ^ 32 / sbEx.blocks_per_group + 1 :=
  ⟨by decide, c8_amended sbEx (by decide)⟩

/-- Claim C4 (code bug), evaluated at the failing input: a single
    directory extent of 12 blocks (byte capacity 12288) holding two
    entries of rec_len 12 and a tail. After parsing the first entry the
    offset is 12 and the iterator already rolls forward (the source
    compares the offset against extent.len = 12, the block count, instead
    of len * block_size = 12288), so iteration ends and the second entry -
    which read_entry parses fine at offset 12 - is never yielded. -/
theorem c4_rollforward_bug :
    readDirNext c4img 1024 true { extents := [c4ext], idx := 0, extent_offset := 0 } =
      some (.ok (.DirEntry2 { inode := 1, rec_len := 12, name_len := 1, file_type := 1,
                              name := [97] },
                 { extents := [c4ext], idx := 1, extent_offset := 0 })) ∧
    readDirNext c4img 1024 true { extents := [c4ext], idx := 1, extent_offset := 0 } = none ∧
    c4ext.read_entry 1024 true c4img 12 =
      .ok (some (.DirEntry2 { inode := 2, rec_len := 12, name_len := 1, file_type := 1,
                              name := [98] }, 24)) ∧
    (12 : Nat) ≠ c4ext.len * 1024 :=
  ⟨rfl, rfl, rfl, by decide⟩

/-- Claim C2 (code bug), evaluated at the failing input: /f has three
    1024-byte extents holding 11s, 22s and 33s. read(path) returns them in
    order, but opening the file and draining it with a 3072-byte buffer
    returns the 33s twice and the 22s never: inside one File::read call
    the extent loop does not advance its offset accumulator after a
    successful read, so the second extent is mistaken for already-consumed
    and the third is read in its place. The two byte sequences differ at
    position 1024. -/
theorem c2_open_drain_differs_from_read :
    ((fsEx.open 50 compsF).bind (drainFile imgEx 3072 10)).map
        (fun l => ((l.drop 1024).take 2, (l.drop 2048).take 2)) = .ok ([33, 33], [33, 33]) ∧
    (fsEx.read 50 compsF).map
        (fun l => ((l.drop 1024).take 2, (l.drop 2048).take 2)) = .ok ([22, 22], [33, 33]) ∧
    (fsEx.open 50 compsF).bind (drainFile imgEx 3072 10) ≠ fsEx.read 50 compsF := by
  refine ⟨rfl, rfl, fun h => ?_⟩
  have h1 : ((fsEx.open 50 compsF).bind (drainFile imgEx 3072 10)).map
      (fun l => ((l.drop 1024).take 2, (l.drop 2048).take 2)) = .ok ([33, 33], [33, 33]) := rfl
  have h2 : (fsEx.read 50 compsF).map
      (fun l => ((l.drop 1024).take 2, (l.drop 2048).take 2)) = .ok ([22, 22], [33, 33]) := rfl
  rw [h] at h1
  have h3 := h1.symm.trans h2
  exact absurd (Except.ok.inj h3) (by decide)

/-- Claim C9 counterexample: the 13-byte stream c9bytes parses
    successfully as a non-tail entry with rec_len 13 and name_len 1;
    13 % 4 ≠ 0, so the claimed invariant
    rec_len >= 8 + name_len ∧ rec_len % 4 == 0 fails on it. -/
theorem c9_counterexample :
    DirEntryEnum.from_reader (Strm.at (Image.ofList c9bytes) 0) true =
      .ok (.DirEntry2 { inode := 1, rec_len := 13, name_len := 1, file_type := 1,
                        name := [97] },
           ⟨Image.ofList c9bytes, 13, 0⟩) ∧
    ¬ (8 + 1 ≤ 13 ∧ 13 % 4 = 0) :=
  ⟨rfl, by decide⟩

/-- Claim C9 as amended: the decoder validates neither rec_len % 4 == 0
    nor rec_len >= 8 + name_len. What a successful non-tail parse does
    guarantee is consumption: the reader advances by exactly
    8 + name_len + ((rec_len - (name_len + 8)) mod 2^16) bytes (the
    alignment skip is u16 arithmetic), which equals rec_len exactly when
    8 + name_len <= rec_len < 2^16. -/
theorem c9_amended (s : Strm) (ft : Bool) (e : DirEntryEnum) (r : Strm)
    (h : DirEntryEnum.from_reader s ft = .ok (e, r))
    (ht : ∀ d, e ≠ .DirEntryTail d) :
    r.pos = s.pos + (8 + e.name_lenN +
      (e.get_rec_len + 2 ^ 16 - (e.name_lenN + 8) % 2 ^ 16) % 2 ^ 16) ∧
    (8 + e.name_lenN ≤ e.get_rec_len → e.get_rec_len < 2 ^ 16 →
      r.pos = s.pos + e.get_rec_len) := by
  have key : ∀ {n : Nat} {b : List Nat} {s' r' : Strm},
      Strm.readExact s' n = some (b, r') → r'.pos = s'.pos + n := by
    intro n b s' r' hre
    unfold Strm.readExact at hre
    split at hre
    · cases hre; rfl
    · cases hre
  simp only [DirEntryEnum.from_reader] at h
  split at h
  · cases h
  next bi s1 hre1 =>
    split at h
    · cases h
    next br s2 hre2 =>
      split at h
      · -- tail branch
        split at h
        · cases h
        next bz s3 hre3 =>
          split at h
          · cases h
          next bf s4 hre4 =>
            split at h
            · cases h
            · split at h
              · cases h
              next bc s5 hre5 =>
                cases h
                exact absurd rfl (ht _)
      · -- non-tail branches
        split at h
        · -- filetype layout
          split at h
          · cases h
          next bn s3 hre3 =>
            split at h
            · cases h
            next bt s4 hre4 =>
              split at h
              · cases h
              next nm s5 hre5 =>
                split at h
                · cases h
                next pad s6 hre6 =>
                  cases h
                  have k1 := key hre1
                  have k2 := key hre2
                  have k3 := key hre3
                  have k4 := key hre4
                  have k5 := key hre5
                  have k6 := key hre6
                  simp only [DirEntryEnum.name_lenN, DirEntryEnum.get_rec_len]
                  constructor
                  · omega
                  · intro hle hlt
                    omega
        · -- classic layout
          split at h
          · cases h
          next bn s3 hre3 =>
            split at h
            · cases h
            next nm s4 hre4 =>
              split at h
              · cases h
              next pad s5 hre5 =>
                cases h
                have k1 := key hre1
                have k2 := key hre2
                have k3 := key hre3
                have k4 := key hre4
                have k5 := key hre5
                simp only [DirEntryEnum.name_lenN, DirEntryEnum.get_rec_len]
                constructor
                · omega
                · intro hle hlt
                  omega

/-- Witness for C9 at the aligned 12-byte stream c9okBytes: the parse
    consumes exactly rec_len = 12 bytes, leaving the reader at pos 12. -/
theorem c9_witness :
    (⟨Image.ofList c9okBytes, 12, 0⟩ : Strm).pos =
      (Strm.at (Image.ofList c9okBytes) 0).pos + 12 :=
  (c9_amended (Strm.at (Image.ofList c9okBytes) 0) true
      (.DirEntry2 { inode := 2, rec_len := 12, name_len := 1, file_type := 2, name := [98] })
      ⟨Image.ofList c9okBytes, 12, 0⟩ rfl
      (fun _ hd => DirEntryEnum.noConfusion hd)).2 (by decide) (by decide)

end Extfs
